import Mathlib

/-!
Shallow embedding of `src/business_validator.py` (Business Validator AI Agent).

Python strings are modelled as `List Char`; `str.find(sub, start)` is modelled
by `findFrom` (lowest index at or after `start` where `sub` occurs, `none` for
Python's `-1`); the slice `s[a:b]` is modelled by `(s.take b).drop a`.
Transcript messages are records with a `role` and a `content` field, as
produced by the external conversation engine and consumed read-only by
`generate_final_report`.  The web-search provider is an explicit parameter:
`Except` failure models a raised exception inside the `try` block of
`web_search`.
-/

namespace BusinessValidator

/-- A transcript message: a role label and a text content, modelling the
dicts with `"role"` and `"content"` keys that the conversation engine emits. -/
structure Message where
  role : List Char
  content : List Char
  deriving DecidableEq

/-- The role label that `find_agent_response` restricts its scan to. -/
def assistantRole : List Char := "assistant".toList

/-- Does `sub` occur in `s` starting exactly at position `i`? -/
def matchesAt (s sub : List Char) (i : Nat) : Bool :=
  decide ((s.drop i).take sub.length = sub)

/-- First index `i` with `start ≤ i < start + fuel` satisfying `p`, scanning
upward from `start`. -/
def findNat (p : Nat → Bool) (start fuel : Nat) : Option Nat :=
  match fuel with
  | 0 => none
  | f + 1 => if p start then some start else findNat p (start + 1) f

/-- Model of Python `s.find(sub, start)`: the lowest index at or after `start`
at which `sub` occurs in `s`, or `none` (Python returns `-1`). -/
def findFrom (s sub : List Char) (start : Nat) : Option Nat :=
  findNat (fun i => matchesAt s sub i) start (s.length + 1 - start)

/-- Model of Python `sub in s`. -/
def containsSub (s sub : List Char) : Bool :=
  (findFrom s sub 0).isSome

/-- Number of positions of `s` (suffixes of `s`) at which `sub` occurs;
used only to measure assembled reports. -/
def countSub (sub : List Char) : List Char → Nat
  | [] => if sub = [] then 1 else 0
  | c :: rest =>
    (if (c :: rest).take sub.length = sub then 1 else 0) + countSub sub rest

/-- The per-message extraction of `find_agent_response`
(`src/business_validator.py` lines 334-340): given that the start marker may
occur in `content`, compute the extracted fragment.  With an end marker
(`pattern_end` truthy, i.e. a non-empty string), the slice from the first
occurrence of the start marker through the first occurrence of the end marker
at or after it; if the end marker is not found there, or no end marker is
given, the entire `content`.  Returns `none` when the start marker is absent
(the `pattern_start in content` guard fails). -/
def extractSection (content ps : List Char) (pe : Option (List Char)) :
    Option (List Char) :=
  match findFrom content ps 0 with
  | none => none
  | some startIdx =>
    match pe with
    | some pend =>
      if pend = [] then some content
      else
        match findFrom content pend startIdx with
        | some endIdx => some ((content.take (endIdx + pend.length)).drop startIdx)
        | none => some content
    | none => some content

/-- The scanning loop of `find_agent_response`, over an already-reversed
message list: take the first message whose role is `assistant` and whose
content contains the start marker, and extract from it. -/
def farGo (ps : List Char) (pe : Option (List Char)) : List Message → Option (List Char)
  | [] => none
  | m :: rest =>
    if m.role = assistantRole ∧ containsSub m.content ps = true then
      extractSection m.content ps pe
    else
      farGo ps pe rest

/-- `find_agent_response` (`src/business_validator.py` lines 330-341):
scan the transcript from most recent to oldest for an assistant message
containing `ps` and extract from the first hit; `none` models Python's
`return None`. -/
def find_agent_response (messages : List Message) (ps : List Char)
    (pe : Option (List Char)) : Option (List Char) :=
  farGo ps pe messages.reverse

/-- Python `a or b` on optional strings: `a` unless it is `None` or an empty
(falsy) string. -/
def pyOr (a b : Option (List Char)) : Option (List Char) :=
  match a with
  | some s => if s = [] then b else some s
  | none => b

/-! Section marker strings used by `generate_final_report`. -/

def mrPrimary : List Char := "### MARKET RESEARCHER".toList
def mrFallback : List Char := "MARKET SIZE:".toList
def caPrimary : List Char := "### COMPETITOR SCOUT".toList
def caFallback : List Char := "DIRECT COMPETITORS:".toList
def clarStart : List Char := "CLARIFIED IDEA:".toList
def clarEnd : List Char := "BUSINESS MODEL:".toList
def swotPrimary : List Char := "### SWOT ANALYSIS".toList
def swotFallback : List Char := "STRENGTHS:".toList
def fbStart : List Char := "STRATEGIC FEEDBACK:".toList
def fbEnd : List Char := "TERMINATE".toList

/-! Fixed text fragments of the assembled report. -/

def newlineChar : List Char := "\n".toList
def mrHeaderLine : List Char := "\n### Market Research\n".toList
def mrPlaceholderLine : List Char :=
  "\n### Market Research\n(No MarketResearcher output found.)\n".toList
def caHeaderLine : List Char := "\n### Competitive Analysis\n".toList
def caPlaceholderLine : List Char :=
  "\n### Competitive Analysis\n(No CompetitorScout output found.)\n".toList
def clarHeaderLine : List Char := "\n### Clarified Business Idea\n".toList
def swotHeaderLine : List Char := "\n### SWOT Analysis\n".toList
def fbHeaderLine : List Char := "\n### Strategic Feedback\n".toList

/-- Leading template of the report (lines 318-327); the date produced by
`datetime.now().strftime` is passed in as a parameter. -/
def reportHeader (business_idea date : List Char) : List Char :=
  "\n# Business Validation Report\n**Business Idea:** ".toList ++ business_idea ++
  "\n**Date:** ".toList ++ date ++
  "\n\n## Executive Summary\nThis report provides a comprehensive validation analysis of the business idea using a multi-agent AI system with real-time web research.\n\n## Analysis Results\n".toList

/-- Static trailing block of the report (lines 378-389). -/
def reportFooter : List Char :=
  "\n## Recommendations\nBased on the analysis above, consider the following next steps:\n1. Validate assumptions with potential customers\n2. Create a minimum viable product (MVP)\n3. Test the business model with early adopters\n4. Refine the value proposition based on feedback\n5. Develop a go-to-market strategy\n\n---\n*Report generated by Business Validator AI Agent with real-time web research*\n".toList

/-- Market-research section (lines 343-350): primary pattern, Python `or`
fallback, placeholder when the combined result is falsy. -/
def marketResearchPart (messages : List Message) : List Char :=
  match pyOr (find_agent_response messages mrPrimary none)
      (find_agent_response messages mrFallback none) with
  | some s => if s = [] then mrPlaceholderLine else mrHeaderLine ++ s ++ newlineChar
  | none => mrPlaceholderLine

/-- Competitive-analysis section (lines 352-359). -/
def competitorPart (messages : List Message) : List Char :=
  match pyOr (find_agent_response messages caPrimary none)
      (find_agent_response messages caFallback none) with
  | some s => if s = [] then caPlaceholderLine else caHeaderLine ++ s ++ newlineChar
  | none => caPlaceholderLine

/-- Clarified-idea section (lines 361-364): no placeholder, omitted when the
extraction is falsy. -/
def clarifiedPart (messages : List Message) : List Char :=
  match find_agent_response messages clarStart (some clarEnd) with
  | some s => if s = [] then [] else clarHeaderLine ++ s ++ newlineChar
  | none => []

/-- SWOT section (lines 366-371): primary/fallback pair, no placeholder. -/
def swotPart (messages : List Message) : List Char :=
  match pyOr (find_agent_response messages swotPrimary none)
      (find_agent_response messages swotFallback none) with
  | some s => if s = [] then [] else swotHeaderLine ++ s ++ newlineChar
  | none => []

/-- Strategic-feedback section (lines 373-376): no placeholder. -/
def feedbackPart (messages : List Message) : List Char :=
  match find_agent_response messages fbStart (some fbEnd) with
  | some s => if s = [] then [] else fbHeaderLine ++ s ++ newlineChar
  | none => []

/-- `_generate_final_report` (lines 308-390): assemble the report text from
the fixed header, the five section parts in fixed order, and the static
footer.  The function only reads the transcript, so the embedding returns the
message list unchanged alongside the report; the `debug` flag only controls
printing in the source and has no effect on the result. -/
def generate_final_report (business_idea date : List Char)
    (messages : List Message) (debug : Bool) : List Char × List Message :=
  (reportHeader business_idea date ++ marketResearchPart messages ++
    competitorPart messages ++ clarifiedPart messages ++ swotPart messages ++
    feedbackPart messages ++ reportFooter,
   messages)

/-! The web-search shim (`WebSearchAgent`). -/

/-- Error value carried by a raised provider exception (its message text). -/
def PyErr : Type := List Char

/-- One result dict returned by the search provider; only the `"body"` field
is read by `web_search`. -/
structure SearchResult where
  body : List Char
  deriving DecidableEq

/-- A search provider: the raw (unbounded) result stream for a query, or a
raised exception.  `DDGS.text(query, max_results=n)` truncates this stream. -/
def Provider : Type := List Char → Except PyErr (List SearchResult)

/-- Model of `ddgs.text(query, max_results=maxResults)`: the provider's
results truncated to at most `maxResults`, or the propagated exception. -/
def ddgs_text (provider : Provider) (query : List Char) (maxResults : Nat) :
    Except PyErr (List SearchResult) :=
  match provider query with
  | Except.ok results => Except.ok (results.take maxResults)
  | Except.error e => Except.error e

/-- `WebSearchAgent.web_search` (lines 64-72): fetch up to 5 results, return
their bodies; on any provider exception return the empty list. -/
def web_search (provider : Provider) (query : List Char) : List (List Char) :=
  match ddgs_text provider query 5 with
  | Except.ok results => results.map (fun r => r.body)
  | Except.error _ => []

/-- The state of a `WebSearchAgent` that `generate_reply` reads. -/
structure WebSearchAgent where
  name : List Char
  business_idea : List Char

def mrName : List Char := "MarketResearcher".toList
def csName : List Char := "CompetitorScout".toList

/-- The query built for the `MarketResearcher` agent (line 83). -/
def marketQuery (business_idea : List Char) : List Char :=
  "market trends and analysis for ".toList ++ business_idea

/-- The query built for the `CompetitorScout` agent (line 87). -/
def competitorQuery (business_idea : List Char) : List Char :=
  "top competitors and alternatives for ".toList ++ business_idea

/-- The query `generate_reply` issues for a research agent, given the
hypothesis that `name` is one of the two research roles. -/
def queryFor (name business_idea : List Char) : List Char :=
  if name = mrName then marketQuery business_idea else competitorQuery business_idea

/-- The fixed banner prepended to injected snippets (line 94). -/
def searchBanner : List Char := "\n\nWEB SEARCH RESULTS:\n".toList

/-- Content of the most recent message, `messages[-1].get("content", "")`. -/
def lastContent (ms : List Message) : List Char :=
  match ms.getLast? with
  | none => []
  | some m => m.content

/-- Model of `messages[-1]["content"] = c`: the list with the last message's
content replaced. -/
def setLastContent (ms : List Message) (c : List Char) : List Message :=
  match ms.getLast? with
  | none => ms
  | some m => ms.dropLast ++ [{ m with content := c }]

/-- `WebSearchAgent.generate_reply` (lines 74-103), up to the delegation to
the parent class: the value returned is the message-list argument ultimately
passed to `super().generate_reply` (`none` models passing `None`).  A `None`
or empty message list skips the guarded block entirely; otherwise a research
agent performs its web search and, when snippets were found, the last
message's content is extended with the banner and the first 3 snippets. -/
def generate_reply (agent : WebSearchAgent) (provider : Provider)
    (messages : Option (List Message)) : Option (List Message) :=
  match messages with
  | none => none
  | some ms =>
    if ms.isEmpty then some ms
    else
      let last_message := lastContent ms
      let search_results :=
        if agent.name = mrName then
          web_search provider (marketQuery agent.business_idea)
        else if agent.name = csName then
          web_search provider (competitorQuery agent.business_idea)
        else []
      if search_results.isEmpty then some ms
      else
        some (setLastContent ms
          (last_message ++ searchBanner ++
            List.intercalate newlineChar (search_results.take 3)))

/-- Does no assistant-role message of the transcript contain the marker `p`?
This is the hypothesis under which a section's pattern finds nothing. -/
def noAssistantMatch (ms : List Message) (p : List Char) : Prop :=
  ∀ m ∈ ms, m.role = assistantRole → containsSub m.content p = false

instance (ms : List Message) (p : List Char) : Decidable (noAssistantMatch ms p) := by
  unfold noAssistantMatch
  infer_instance

/-! Concrete data used by the witness and counterexample theorems. -/

def userRole : List Char := "user".toList

def c4ContentOld : List Char := "MARKET SIZE: old".toList
def c4ContentMid : List Char := "MARKET SIZE: mid".toList
def c4ContentLate : List Char := "MARKET SIZE: late".toList
def c4MsgOld : Message := ⟨assistantRole, c4ContentOld⟩
def c4MsgMid : Message := ⟨assistantRole, c4ContentMid⟩
def c4MsgLate : Message := ⟨userRole, c4ContentLate⟩

def boomMessage : List Char := "boom".toList

/-- A provider that raises on every call. -/
def failingProvider : Provider := fun _ => Except.error boomMessage

def helloContent : List Char := "hello".toList
def ideaZero : List Char := "pet sitting app".toList
def dateZero : List Char := "2026-10-12 00:00:00".toList

def c3Content : List Char := "CLARIFIED IDEA: app BUSINESS MODEL: subs".toList

def c9ps : List Char := "S:".toList
def c9pe : List Char := "END".toList
def c9Content : List Char := "END S: one S: two".toList

def c2Content : List Char := "Note: STRATEGIC FEEDBACK: promising".toList
def c2Msg : Message := ⟨assistantRole, c2Content⟩
def c2WContent : List Char :=
  "TERMINATE early STRATEGIC FEEDBACK: revise pricing".toList
def c2WMsg : Message := ⟨assistantRole, c2WContent⟩
def sufUserMsg : Message := ⟨userRole, helloContent⟩

def c5Content : List Char := "### MARKET RESEARCHER\nMARKET SIZE: large".toList
def c5Msg : Message := ⟨assistantRole, c5Content⟩

def snippetOne : List Char := "snippet one".toList
def resultOne : SearchResult := ⟨snippetOne⟩

/-- A provider that returns one fixed result on every call. -/
def okProvider : Provider := fun _ => Except.ok [resultOne]

def c7Msg : Message := ⟨userRole, helloContent⟩

def outputFoundMarker : List Char := "output found.)".toList

def c1WContent : List Char := "MARKET SIZE: big DIRECT COMPETITORS: none".toList
def c1WMsg : Message := ⟨userRole, c1WContent⟩

/-! Helper lemmas about the search primitives. -/

theorem findNat_eq_some_iff (p : Nat → Bool) (fuel start i : Nat) :
    findNat p start fuel = some i ↔
      (start ≤ i ∧ i < start + fuel ∧ p i = true ∧
        ∀ j, start ≤ j → j < i → p j = false) := by
  induction fuel generalizing start with
  | zero =>
    constructor
    · intro h; exact absurd h (by simp [findNat])
    · rintro ⟨h1, h2, -, -⟩; omega
  | succ f ih =>
    rw [findNat]
    by_cases hp : p start = true
    · rw [if_pos hp]
      constructor
      · rintro h
        injection h with h
        subst h
        exact ⟨Nat.le_refl _, by omega, hp, fun j hj1 hj2 => by omega⟩
      · rintro ⟨h1, h2, h3, h4⟩
        rcases Nat.eq_or_lt_of_le h1 with rfl | hlt
        · rfl
        · exact absurd hp (by simp [h4 start (Nat.le_refl _) hlt])
    · rw [if_neg hp]
      rw [ih]
      constructor
      · rintro ⟨h1, h2, h3, h4⟩
        refine ⟨by omega, by omega, h3, fun j hj1 hj2 => ?_⟩
        rcases Nat.eq_or_lt_of_le hj1 with rfl | hlt
        · exact Bool.eq_false_iff.mpr hp
        · exact h4 j hlt hj2
      · rintro ⟨h1, h2, h3, h4⟩
        have hne : start ≠ i := by
          rintro rfl; exact hp h3
        refine ⟨by omega, by omega, h3, fun j hj1 hj2 => h4 j (by omega) hj2⟩

theorem findNat_eq_none_iff (p : Nat → Bool) (fuel start : Nat) :
    findNat p start fuel = none ↔
      ∀ j, start ≤ j → j < start + fuel → p j = false := by
  induction fuel generalizing start with
  | zero =>
    constructor
    · intro _ j hj1 hj2; omega
    · intro _; rfl
  | succ f ih =>
    rw [findNat]
    by_cases hp : p start = true
    · rw [if_pos hp]
      constructor
      · intro h; exact absurd h (by simp)
      · intro h; exact absurd hp (by simp [h start (Nat.le_refl _) (by omega)])
    · rw [if_neg hp]
      rw [ih]
      constructor
      · intro h j hj1 hj2
        rcases Nat.eq_or_lt_of_le hj1 with rfl | hlt
        · exact Bool.eq_false_iff.mpr hp
        · exact h j hlt (by omega)
      · intro h j hj1 hj2
        exact h j (by omega) (by omega)

theorem matchesAt_true_iff (s sub : List Char) (i : Nat) :
    matchesAt s sub i = true ↔ (s.drop i).take sub.length = sub := by
  simp [matchesAt]

theorem matchesAt_bound (s sub : List Char) (i : Nat) (hsub : sub ≠ [])
    (h : matchesAt s sub i = true) : i + sub.length ≤ s.length := by
  rw [matchesAt_true_iff] at h
  have hlen := congrArg List.length h
  rw [List.length_take, List.length_drop] at hlen
  have hi : i ≤ s.length := by
    by_contra hgt
    push_neg at hgt
    rw [List.drop_of_length_le (Nat.le_of_lt hgt)] at h
    simp at h
    exact hsub h
  omega

theorem findFrom_eq_some_iff (s sub : List Char) (start i : Nat) :
    findFrom s sub start = some i ↔
      (start ≤ i ∧ i ≤ s.length ∧ matchesAt s sub i = true ∧
        ∀ j, start ≤ j → j < i → matchesAt s sub j = false) := by
  unfold findFrom
  rw [findNat_eq_some_iff]
  constructor
  · rintro ⟨h1, h2, h3, h4⟩
    exact ⟨h1, by omega, h3, h4⟩
  · rintro ⟨h1, h2, h3, h4⟩
    exact ⟨h1, by omega, h3, h4⟩

theorem findFrom_eq_none_iff (s sub : List Char) (start : Nat) :
    findFrom s sub start = none ↔
      ∀ j, start ≤ j → j ≤ s.length → matchesAt s sub j = false := by
  unfold findFrom
  rw [findNat_eq_none_iff]
  constructor
  · intro h j hj1 hj2; exact h j hj1 (by omega)
  · intro h j hj1 hj2; exact h j hj1 (by omega)

theorem findFrom_eq_none_of_no_match (s sub : List Char) (start : Nat)
    (h : ∀ j, start ≤ j → matchesAt s sub j = false) :
    findFrom s sub start = none := by
  rw [findFrom_eq_none_iff]
  exact fun j hj1 _ => h j hj1

theorem containsSub_eq_true_of_matchesAt (s sub : List Char) (i : Nat)
    (hsub : sub ≠ []) (h : matchesAt s sub i = true) :
    containsSub s sub = true := by
  unfold containsSub
  cases hf : findFrom s sub 0 with
  | some k => rfl
  | none =>
    rw [findFrom_eq_none_iff] at hf
    have hi : i ≤ s.length := by
      have := matchesAt_bound s sub i hsub h
      omega
    exact absurd h (by simp [hf i (Nat.zero_le _) hi])

theorem containsSub_eq_false_iff (s sub : List Char) (hsub : sub ≠ []) :
    containsSub s sub = false ↔ ∀ i, matchesAt s sub i = false := by
  constructor
  · intro h i
    by_contra hmm
    rw [Bool.not_eq_false] at hmm
    rw [containsSub_eq_true_of_matchesAt s sub i hsub hmm] at h
    exact absurd h (by simp)
  · intro h
    unfold containsSub
    rw [findFrom_eq_none_of_no_match s sub 0 (fun j _ => h j)]
    rfl

/-! Helper lemmas about the scanning loop of `find_agent_response`. -/

theorem farGo_eq_none_of_skip (ps : List Char) (pe : Option (List Char))
    (l : List Message)
    (h : ∀ m ∈ l, m.role = assistantRole → containsSub m.content ps = false) :
    farGo ps pe l = none := by
  induction l with
  | nil => rfl
  | cons m t ih =>
    have hm := h m (List.mem_cons_self m t)
    rw [farGo, if_neg, ih (fun m2 hm2 => h m2 (List.mem_cons_of_mem m hm2))]
    rintro ⟨hr, hc⟩
    rw [hm hr] at hc
    exact absurd hc (by simp)

theorem farGo_append_of_skip (ps : List Char) (pe : Option (List Char))
    (l1 l2 : List Message)
    (h : ∀ m ∈ l1, m.role = assistantRole → containsSub m.content ps = false) :
    farGo ps pe (l1 ++ l2) = farGo ps pe l2 := by
  induction l1 with
  | nil => rfl
  | cons m t ih =>
    have hm := h m (List.mem_cons_self m t)
    rw [List.cons_append, farGo, if_neg,
      ih (fun m2 hm2 => h m2 (List.mem_cons_of_mem m hm2))]
    rintro ⟨hr, hc⟩
    rw [hm hr] at hc
    exact absurd hc (by simp)

theorem find_agent_response_eq_none (messages : List Message) (ps : List Char)
    (pe : Option (List Char))
    (h : ∀ m ∈ messages, m.role = assistantRole → containsSub m.content ps = false) :
    find_agent_response messages ps pe = none := by
  unfold find_agent_response
  exact farGo_eq_none_of_skip ps pe messages.reverse
    (fun m hm => h m (List.mem_reverse.mp hm))

theorem find_agent_response_decomp (pre suf : List Message) (m : Message)
    (ps : List Char) (pe : Option (List Char))
    (hr : m.role = assistantRole) (hc : containsSub m.content ps = true)
    (hs : ∀ m2 ∈ suf, m2.role = assistantRole → containsSub m2.content ps = false) :
    find_agent_response (pre ++ m :: suf) ps pe = extractSection m.content ps pe := by
  unfold find_agent_response
  rw [List.reverse_append, List.reverse_cons, List.append_assoc,
    farGo_append_of_skip ps pe suf.reverse ([m] ++ pre.reverse)
      (fun m2 hm2 => hs m2 (List.mem_reverse.mp hm2))]
  rw [List.singleton_append, farGo, if_pos ⟨hr, hc⟩]

/-! Helper lemmas about the per-message extraction. -/

theorem extractSection_eq_slice (content ps pend : List Char) (i k : Nat)
    (hpe : pend ≠ [])
    (h1 : findFrom content ps 0 = some i)
    (h2 : findFrom content pend i = some k) :
    extractSection content ps (some pend) =
      some ((content.take (k + pend.length)).drop i) := by
  unfold extractSection
  rw [h1]
  simp only [if_neg hpe]
  rw [h2]

theorem extractSection_eq_content_of_no_end (content ps pend : List Char) (i : Nat)
    (hpe : pend ≠ [])
    (h1 : findFrom content ps 0 = some i)
    (h2 : findFrom content pend i = none) :
    extractSection content ps (some pend) = some content := by
  unfold extractSection
  rw [h1]
  simp only [if_neg hpe]
  rw [h2]

theorem extractSection_ne_nil (content ps : List Char) (pe : Option (List Char))
    (hps : ps ≠ []) (r : List Char)
    (h : extractSection content ps pe = some r) : r ≠ [] := by
  cases hf : findFrom content ps 0 with
  | none =>
    unfold extractSection at h
    rw [hf] at h
    exact absurd h (by simp)
  | some i =>
    have hm : matchesAt content ps i = true :=
      ((findFrom_eq_some_iff content ps 0 i).mp hf).2.2.1
    have hcl : 0 < content.length := by
      have hb := matchesAt_bound content ps i hps hm
      have hp : 0 < ps.length := List.length_pos.mpr hps
      omega
    have hcontent : content ≠ [] := by
      intro hc
      rw [hc] at hcl
      exact absurd hcl (by simp)
    cases pe with
    | none =>
      have he : extractSection content ps none = some content := by
        unfold extractSection
        rw [hf]
      rw [he] at h
      injection h with h
      exact h ▸ hcontent
    | some pend =>
      by_cases hpe : pend = []
      · have he : extractSection content ps (some pend) = some content := by
          unfold extractSection
          rw [hf]
          simp only [if_pos hpe]
        rw [he] at h
        injection h with h
        exact h ▸ hcontent
      · cases he : findFrom content pend i with
        | none =>
          rw [extractSection_eq_content_of_no_end content ps pend i hpe hf he] at h
          injection h with h
          exact h ▸ hcontent
        | some k =>
          rw [extractSection_eq_slice content ps pend i k hpe hf he] at h
          injection h with h
          obtain ⟨hik, -, hmk, -⟩ := (findFrom_eq_some_iff content pend i k).mp he
          have hkb := matchesAt_bound content pend k hpe hmk
          have hpend : 0 < pend.length := List.length_pos.mpr hpe
          intro hr
          have hlen := congrArg List.length h
          rw [hr] at hlen
          rw [List.length_drop, List.length_take] at hlen
          simp at hlen
          omega

theorem farGo_some_ne_nil (ps : List Char) (pe : Option (List Char))
    (l : List Message) (r : List Char) (hps : ps ≠ [])
    (h : farGo ps pe l = some r) : r ≠ [] := by
  induction l with
  | nil => exact absurd h (by simp [farGo])
  | cons m t ih =>
    rw [farGo] at h
    by_cases hg : m.role = assistantRole ∧ containsSub m.content ps = true
    · rw [if_pos hg] at h
      exact extractSection_ne_nil m.content ps pe hps r h
    · rw [if_neg hg] at h
      exact ih h

theorem find_agent_response_some_ne_nil (messages : List Message) (ps : List Char)
    (pe : Option (List Char)) (r : List Char) (hps : ps ≠ [])
    (h : find_agent_response messages ps pe = some r) : r ≠ [] :=
  farGo_some_ne_nil ps pe messages.reverse r hps h

/-! Claim theorems. -/

/-- Claim C4: `find_agent_response` scans the transcript from most recent to
oldest and extracts from the most recent message whose role is `assistant` and
whose content contains the start marker; messages with any other role label
are never used, even when their content contains the marker.  Part one: when
no assistant message contains the marker the result is `None` (non-assistant
messages containing it are irrelevant).  Part two: when the transcript splits
as `pre ++ m :: suf` with `m` an assistant message containing the marker and
no assistant message in the more recent part `suf` containing it, the result
is the extraction from `m` (whatever `pre` holds and whatever marker-bearing
non-assistant messages `suf` holds). -/
theorem c4_most_recent_assistant_wins :
    (∀ (messages : List Message) (ps : List Char) (pe : Option (List Char)),
        (∀ m ∈ messages, m.role = assistantRole → containsSub m.content ps = false) →
        find_agent_response messages ps pe = none)
    ∧ (∀ (pre suf : List Message) (m : Message) (ps : List Char)
          (pe : Option (List Char)),
        m.role = assistantRole → containsSub m.content ps = true →
        (∀ m2 ∈ suf, m2.role = assistantRole → containsSub m2.content ps = false) →
        find_agent_response (pre ++ m :: suf) ps pe = extractSection m.content ps pe) :=
  ⟨find_agent_response_eq_none, find_agent_response_decomp⟩

/-- Witness for C4: an older assistant match is shadowed by a more recent
assistant match, while an even more recent user message containing the marker
is ignored. -/
theorem c4_most_recent_assistant_wins_witness :
    find_agent_response [c4MsgOld, c4MsgMid, c4MsgLate] mrFallback none
      = extractSection c4ContentMid mrFallback none :=
  c4_most_recent_assistant_wins.2 [c4MsgOld] [c4MsgLate] c4MsgMid mrFallback none
    rfl (by decide) (by decide)

/-- Claim C6: when the search provider raises on every query, `web_search`
returns the empty list (the exception is swallowed inside its `try` block and
never propagated — `web_search` is total with result `[]`), and consequently
`generate_reply` appends zero snippets and delegates to the parent class with
the message list unmodified, for every agent. -/
theorem c6_provider_failure_swallowed (provider : Provider)
    (hfail : ∀ q, ∃ e, provider q = Except.error e) :
    (∀ q, web_search provider q = [])
    ∧ (∀ (agent : WebSearchAgent) (ms : List Message),
        generate_reply agent provider (some ms) = some ms)
    ∧ (∀ agent : WebSearchAgent, generate_reply agent provider none = none) := by
  have hws : ∀ q, web_search provider q = [] := by
    intro q
    obtain ⟨e, he⟩ := hfail q
    unfold web_search ddgs_text
    rw [he]
  refine ⟨hws, ?_, fun agent => rfl⟩
  intro agent ms
  cases ms with
  | nil => rfl
  | cons a t => simp [generate_reply, hws]

/-- Witness for C6: a concrete always-raising provider, a research agent and a
concrete non-empty message list. -/
theorem c6_provider_failure_swallowed_witness :
    web_search failingProvider helloContent = []
    ∧ generate_reply ⟨mrName, ideaZero⟩ failingProvider
        (some [⟨userRole, helloContent⟩]) = some [⟨userRole, helloContent⟩]
    ∧ generate_reply ⟨mrName, ideaZero⟩ failingProvider none = none := by
  have hfail : ∀ q, ∃ e, failingProvider q = Except.error e :=
    fun q => ⟨boomMessage, rfl⟩
  exact ⟨(c6_provider_failure_swallowed failingProvider hfail).1 helloContent,
    (c6_provider_failure_swallowed failingProvider hfail).2.1 ⟨mrName, ideaZero⟩
      [⟨userRole, helloContent⟩],
    (c6_provider_failure_swallowed failingProvider hfail).2.2 ⟨mrName, ideaZero⟩⟩

/-- Claim C8: report generation is read-only over the transcript: the message
list coming out of `generate_final_report` is the input list — same length,
and every position holds the same message (hence the same role and content).
The embedding returns the transcript unchanged precisely because
`_generate_final_report` in the source only ever reads `messages` (via
`find_agent_response`) and never assigns to it or to its elements. -/
theorem c8_report_read_only (business_idea date : List Char)
    (messages : List Message) (debug : Bool) :
    (generate_final_report business_idea date messages debug).2 = messages
    ∧ ((generate_final_report business_idea date messages debug).2).length
        = messages.length
    ∧ ∀ i : Nat,
        ((generate_final_report business_idea date messages debug).2).get? i
          = messages.get? i :=
  ⟨rfl, rfl, fun _ => rfl⟩

/-- Claim C10: with a `None` or empty message list, `generate_reply` performs
no web search (its result does not depend on the provider at all) and modifies
no message: the call is delegated unchanged to the parent class, and the
guarded block containing the `messages[-1]` access is never entered. -/
theorem c10_none_or_empty_list_safe (agent : WebSearchAgent) (p1 p2 : Provider) :
    generate_reply agent p1 none = none
    ∧ generate_reply agent p1 (some []) = some []
    ∧ generate_reply agent p1 none = generate_reply agent p2 none
    ∧ generate_reply agent p1 (some []) = generate_reply agent p2 (some []) :=
  ⟨rfl, rfl, rfl, rfl⟩

/-- Claim C3: for a message text containing `"CLARIFIED IDEA:"` and, at some
later position, `"BUSINESS MODEL:"`, the extracted clarified-idea section is
exactly the substring from the first occurrence of the start marker through
the first subsequent occurrence of the end marker, inclusive of the end
marker's text.  The hypotheses fix `i` as the first occurrence of the start
marker and require some later occurrence of the end marker; the conclusion
exhibits the first subsequent end-marker occurrence `k` and identifies the
extraction with the slice `content[i : k + 15]`. -/
theorem c3_clarified_idea_slice (content : List Char) (i j : Nat)
    (hi : matchesAt content clarStart i = true)
    (hfirst : ∀ j0 < i, matchesAt content clarStart j0 = false)
    (hij : i < j) (hj : matchesAt content clarEnd j = true) :
    ∃ k, i < k ∧ matchesAt content clarEnd k = true ∧
      (∀ k0, i ≤ k0 → k0 < k → matchesAt content clarEnd k0 = false) ∧
      extractSection content clarStart (some clarEnd) =
        some ((content.take (k + clarEnd.length)).drop i) := by
  have hclar_ne : clarStart ≠ ([] : List Char) := by decide
  have hend_ne : clarEnd ≠ ([] : List Char) := by decide
  have hiL : i ≤ content.length := by
    have := matchesAt_bound content clarStart i hclar_ne hi
    omega
  have hf1 : findFrom content clarStart 0 = some i :=
    (findFrom_eq_some_iff content clarStart 0 i).mpr
      ⟨Nat.zero_le i, hiL, hi, fun j0 _ hj0 => hfirst j0 hj0⟩
  cases he : findFrom content clarEnd i with
  | none =>
    exfalso
    rw [findFrom_eq_none_iff] at he
    have hjL : j ≤ content.length := by
      have := matchesAt_bound content clarEnd j hend_ne hj
      omega
    exact absurd hj (by simp [he j (Nat.le_of_lt hij) hjL])
  | some k =>
    obtain ⟨hik, hkL, hmk, hmin⟩ := (findFrom_eq_some_iff content clarEnd i k).mp he
    have hik_ne : i ≠ k := by
      rintro rfl
      rw [matchesAt_true_iff] at hi hmk
      have hlen : clarStart.length = clarEnd.length := by decide
      rw [hlen] at hi
      exact absurd (hi.symm.trans hmk) (by decide)
    refine ⟨k, by omega, hmk, hmin, ?_⟩
    exact extractSection_eq_slice content clarStart clarEnd i k hend_ne hf1 he

/-- Witness for C3: in `"CLARIFIED IDEA: app BUSINESS MODEL: subs"` the start
marker occurs first at 0 and the end marker later at 20, so extraction yields
the slice through position 20 + 15. -/
theorem c3_clarified_idea_slice_witness :
    ∃ k, 0 < k ∧ matchesAt c3Content clarEnd k = true ∧
      (∀ k0, 0 ≤ k0 → k0 < k → matchesAt c3Content clarEnd k0 = false) ∧
      extractSection c3Content clarStart (some clarEnd) =
        some ((c3Content.take (k + clarEnd.length)).drop 0) :=
  c3_clarified_idea_slice c3Content 0 20 (by decide) (by decide) (by decide)
    (by decide)

/-- Claim C9: with both a start and an end marker, extraction anchors at the
first occurrence `i` of the start marker (even when the start marker occurs
again at `i2 > i`), and the end-marker search begins at index `i`: if no
end-marker occurrence exists at or after `i` (occurrences strictly before `i`
being irrelevant), the entire message content is returned; if the first
end-marker occurrence at or after `i` is at `k`, the slice
`content[i : k + pend.length]` is returned. -/
theorem c9_first_occurrence_anchoring (content ps pend : List Char) (i i2 : Nat)
    (hps : ps ≠ []) (hpe : pend ≠ [])
    (hi : matchesAt content ps i = true)
    (hfirst : ∀ j < i, matchesAt content ps j = false)
    (hii2 : i < i2) (hi2 : matchesAt content ps i2 = true) :
    ((∀ j < content.length + 1, i ≤ j → matchesAt content pend j = false) →
        extractSection content ps (some pend) = some content)
    ∧ (∀ k, i ≤ k → matchesAt content pend k = true →
        (∀ j, i ≤ j → j < k → matchesAt content pend j = false) →
        extractSection content ps (some pend) =
          some ((content.take (k + pend.length)).drop i)) := by
  have hiL : i ≤ content.length := by
    have := matchesAt_bound content ps i hps hi
    omega
  have hf1 : findFrom content ps 0 = some i :=
    (findFrom_eq_some_iff content ps 0 i).mpr
      ⟨Nat.zero_le i, hiL, hi, fun j0 _ hj0 => hfirst j0 hj0⟩
  constructor
  · intro hnone
    have he : findFrom content pend i = none := by
      rw [findFrom_eq_none_iff]
      intro j hij hjL
      exact hnone j (by omega) hij
    exact extractSection_eq_content_of_no_end content ps pend i hpe hf1 he
  · intro k hik hk hmin
    have hkL : k ≤ content.length := by
      have := matchesAt_bound content pend k hpe hk
      omega
    have he : findFrom content pend i = some k :=
      (findFrom_eq_some_iff content pend i k).mpr ⟨hik, hkL, hk, hmin⟩
    exact extractSection_eq_slice content ps pend i k hpe hf1 he

/-- Witness for C9: in `"END S: one S: two"` the start marker `"S:"` occurs at
4 and again at 11, and the end marker `"END"` occurs only at 0, strictly
before the anchor; the whole content is returned. -/
theorem c9_first_occurrence_anchoring_witness :
    extractSection c9Content c9ps (some c9pe) = some c9Content :=
  (c9_first_occurrence_anchoring c9Content c9ps c9pe 4 11 (by decide) (by decide)
    (by decide) (by decide) (by decide) (by decide)).1 (by decide)

/-- Counterexample to claim C2.  The claim: when an assistant message contains
`"STRATEGIC FEEDBACK:"` but `"TERMINATE"` does not occur at or after that
marker, the extracted section equals the remainder of the message from the
start marker through the end.  Here the message is
`"Note: STRATEGIC FEEDBACK: promising"`: the marker first occurs at index 6,
`"TERMINATE"` occurs nowhere, yet `find_agent_response` returns the entire
message content (line 340 of the source returns `content`, not
`content[start_idx:]`), which differs from the remainder `content.drop 6`
demanded by the claim. -/
theorem c2_counterexample :
    matchesAt c2Content fbStart 6 = true
    ∧ (∀ j < 6, matchesAt c2Content fbStart j = false)
    ∧ (∀ j < c2Content.length + 1, matchesAt c2Content fbEnd j = false)
    ∧ find_agent_response [c2Msg] fbStart (some fbEnd) = some c2Content
    ∧ some c2Content ≠ some (c2Content.drop 6) := by
  decide

/-- Claim C2 as amended: when the most recent marker-bearing assistant message
contains `"STRATEGIC FEEDBACK:"` first at index `i` and `"TERMINATE"` does not
occur at or after `i` in it, the extracted Strategic Feedback section equals
the ENTIRE content of that message (including any text before the start
marker), and extraction does not raise an error. -/
theorem c2_amended_full_content (pre suf : List Message) (m : Message) (i : Nat)
    (hr : m.role = assistantRole)
    (hi : matchesAt m.content fbStart i = true)
    (hfirst : ∀ j < i, matchesAt m.content fbStart j = false)
    (hterm : ∀ j < m.content.length + 1, i ≤ j → matchesAt m.content fbEnd j = false)
    (hsuf : ∀ m2 ∈ suf, m2.role = assistantRole → containsSub m2.content fbStart = false) :
    find_agent_response (pre ++ m :: suf) fbStart (some fbEnd) = some m.content := by
  have hfb_ne : fbStart ≠ ([] : List Char) := by decide
  have hterm_ne : fbEnd ≠ ([] : List Char) := by decide
  have hc : containsSub m.content fbStart = true :=
    containsSub_eq_true_of_matchesAt m.content fbStart i hfb_ne hi
  rw [find_agent_response_decomp pre suf m fbStart (some fbEnd) hr hc hsuf]
  have hiL : i ≤ m.content.length := by
    have := matchesAt_bound m.content fbStart i hfb_ne hi
    omega
  have hf1 : findFrom m.content fbStart 0 = some i :=
    (findFrom_eq_some_iff m.content fbStart 0 i).mpr
      ⟨Nat.zero_le i, hiL, hi, fun j0 _ hj0 => hfirst j0 hj0⟩
  have he : findFrom m.content fbEnd i = none := by
    rw [findFrom_eq_none_iff]
    intro j hij hjL
    exact hterm j (by omega) hij
  exact extractSection_eq_content_of_no_end m.content fbStart fbEnd i hterm_ne hf1 he

/-- Witness for the amended C2: the assistant message
`"TERMINATE early STRATEGIC FEEDBACK: revise pricing"` has `"TERMINATE"` only
strictly before the marker (at 0, marker at 16), and a more recent user
message is skipped; the whole content is extracted. -/
theorem c2_amended_full_content_witness :
    find_agent_response [c2WMsg, sufUserMsg] fbStart (some fbEnd) = some c2WContent :=
  c2_amended_full_content [] [sufUserMsg] c2WMsg 16 rfl (by decide) (by decide)
    (by decide) (by decide)

/-- Claim C5: for each report section with a primary/fallback pattern pair
(market research, competitive analysis, SWOT): if the primary pattern matches
some assistant message, its extracted content is used and the fallback value
is never consulted (Python `or` short-circuits: `pyOr (some s) b = some s`
for every `b`); if the primary finds nothing but the fallback matches, the
fallback content is used; and each section's result is a function of its own
two searches only, independent of the other sections. -/
theorem c5_primary_fallback_sections (ms : List Message) (s : List Char) :
    (find_agent_response ms mrPrimary none = some s →
        marketResearchPart ms = mrHeaderLine ++ s ++ newlineChar)
    ∧ (find_agent_response ms mrPrimary none = none →
        find_agent_response ms mrFallback none = some s →
        marketResearchPart ms = mrHeaderLine ++ s ++ newlineChar)
    ∧ (find_agent_response ms caPrimary none = some s →
        competitorPart ms = caHeaderLine ++ s ++ newlineChar)
    ∧ (find_agent_response ms caPrimary none = none →
        find_agent_response ms caFallback none = some s →
        competitorPart ms = caHeaderLine ++ s ++ newlineChar)
    ∧ (find_agent_response ms swotPrimary none = some s →
        swotPart ms = swotHeaderLine ++ s ++ newlineChar)
    ∧ (find_agent_response ms swotPrimary none = none →
        find_agent_response ms swotFallback none = some s →
        swotPart ms = swotHeaderLine ++ s ++ newlineChar)
    ∧ (s ≠ [] → ∀ b, pyOr (some s) b = some s)
    ∧ (∀ ms2 : List Message,
        find_agent_response ms mrPrimary none = find_agent_response ms2 mrPrimary none →
        find_agent_response ms mrFallback none = find_agent_response ms2 mrFallback none →
        marketResearchPart ms = marketResearchPart ms2)
    ∧ (∀ ms2 : List Message,
        find_agent_response ms caPrimary none = find_agent_response ms2 caPrimary none →
        find_agent_response ms caFallback none = find_agent_response ms2 caFallback none →
        competitorPart ms = competitorPart ms2)
    ∧ (∀ ms2 : List Message,
        find_agent_response ms swotPrimary none = find_agent_response ms2 swotPrimary none →
        find_agent_response ms swotFallback none = find_agent_response ms2 swotFallback none →
        swotPart ms = swotPart ms2) := by
  refine ⟨?_, ?_, ?_, ?_, ?_, ?_, ?_, ?_, ?_, ?_⟩
  · intro h
    have hs : s ≠ [] :=
      find_agent_response_some_ne_nil ms mrPrimary none s (by decide) h
    simp [marketResearchPart, pyOr, h, hs]
  · intro h1 h2
    have hs : s ≠ [] :=
      find_agent_response_some_ne_nil ms mrFallback none s (by decide) h2
    simp [marketResearchPart, pyOr, h1, h2, hs]
  · intro h
    have hs : s ≠ [] :=
      find_agent_response_some_ne_nil ms caPrimary none s (by decide) h
    simp [competitorPart, pyOr, h, hs]
  · intro h1 h2
    have hs : s ≠ [] :=
      find_agent_response_some_ne_nil ms caFallback none s (by decide) h2
    simp [competitorPart, pyOr, h1, h2, hs]
  · intro h
    have hs : s ≠ [] :=
      find_agent_response_some_ne_nil ms swotPrimary none s (by decide) h
    simp [swotPart, pyOr, h, hs]
  · intro h1 h2
    have hs : s ≠ [] :=
      find_agent_response_some_ne_nil ms swotFallback none s (by decide) h2
    simp [swotPart, pyOr, h1, h2, hs]
  · intro hs b
    simp [pyOr, hs]
  · intro ms2 e1 e2
    unfold marketResearchPart
    rw [e1, e2]
  · intro ms2 e1 e2
    unfold competitorPart
    rw [e1, e2]
  · intro ms2 e1 e2
    unfold swotPart
    rw [e1, e2]

/-- Witness for C5: a transcript whose assistant message matches the
market-research primary pattern; the primary content is used. -/
theorem c5_primary_fallback_sections_witness :
    marketResearchPart [c5Msg] = mrHeaderLine ++ c5Content ++ newlineChar :=
  (c5_primary_fallback_sections [c5Msg] c5Content).1 (by decide)

/-- Claim C7: for every non-empty message list, when the replying agent is one
of the two research roles and its web search returns a non-empty snippet list,
`generate_reply` hands the parent class the message list with the last
message's content replaced by its previous content followed by the fixed
banner and the first 3 snippets joined by newlines; and `web_search` never
returns more than 5 snippets (it requests `max_results=5`). -/
theorem c7_snippets_injected (provider : Provider) (bi : List Char)
    (ms : List Message) (name : List Char)
    (hms : ms ≠ [])
    (hname : name = mrName ∨ name = csName) :
    (∀ q, (web_search provider q).length ≤ 5)
    ∧ (web_search provider (queryFor name bi) ≠ [] →
        generate_reply ⟨name, bi⟩ provider (some ms)
          = some (setLastContent ms
              (lastContent ms ++ searchBanner ++
                List.intercalate newlineChar
                  ((web_search provider (queryFor name bi)).take 3)))) := by
  constructor
  · intro q
    unfold web_search ddgs_text
    cases provider q with
    | error e => simp
    | ok rs => simp [Nat.min_le_left]
  · intro hsn
    rcases hname with rfl | rfl
    · have hqr : queryFor mrName bi = marketQuery bi := if_pos rfl
      rw [hqr] at hsn ⊢
      cases ms with
      | nil => exact absurd rfl hms
      | cons a t =>
        cases hws : web_search provider (marketQuery bi) with
        | nil => exact absurd hws hsn
        | cons s1 ss => simp [generate_reply, hws]
    · have hqr : queryFor csName bi = competitorQuery bi :=
        if_neg (by decide)
      rw [hqr] at hsn ⊢
      cases ms with
      | nil => exact absurd rfl hms
      | cons a t =>
        cases hws : web_search provider (competitorQuery bi) with
        | nil => exact absurd hws hsn
        | cons s1 ss =>
          simp [generate_reply, hws, show ¬(csName = mrName) from by decide]

/-- Witness for C7: a one-result provider, the `MarketResearcher` agent and a
one-message transcript; the banner and the snippet are appended to the last
message before delegation. -/
theorem c7_snippets_injected_witness :
    generate_reply ⟨mrName, ideaZero⟩ okProvider (some [c7Msg])
      = some (setLastContent [c7Msg]
          (lastContent [c7Msg] ++ searchBanner ++
            List.intercalate newlineChar
              ((web_search okProvider (queryFor mrName ideaZero)).take 3))) :=
  (c7_snippets_injected okProvider ideaZero [c7Msg] mrName (by decide)
    (Or.inl rfl)).2 (by decide)

set_option maxRecDepth 40000 in
/-- Counterexample to claim C1.  The claim: each of the five report sections
whose markers occur in no assistant message appears in the report as that
section's fixed `"(No ... output found.)"` placeholder line.  On the empty
transcript every marker is absent, so the claim would put five such
placeholder lines in the report; but the assembled report contains exactly
two occurrences of `"output found.)"` (the MarketResearcher and
CompetitorScout placeholders), and the clarified-idea, SWOT and
strategic-feedback sections contribute nothing at all — the source guards
those three sections with a bare `if` and has no `else` placeholder branch
(lines 361-376). -/
theorem c1_counterexample :
    countSub outputFoundMarker (generate_final_report ideaZero dateZero [] false).1 = 2
    ∧ clarifiedPart [] = []
    ∧ swotPart [] = []
    ∧ feedbackPart [] = [] := by
  decide

/-- Claim C1 as amended: for every transcript, a section whose start markers
(primary and fallback) occur in no assistant-role message is handled without
error as follows — the Market Research and Competitive Analysis sections
appear as their fixed placeholder lines `"(No MarketResearcher output
found.)"` and `"(No CompetitorScout output found.)"`, while the Clarified
Business Idea, SWOT Analysis and Strategic Feedback sections are omitted from
the report entirely (they contribute the empty string, with no placeholder);
the report is always the fixed header, the five section parts in order, and
the fixed footer. -/
theorem c1_amended_placeholders (ms : List Message) :
    (noAssistantMatch ms mrPrimary → noAssistantMatch ms mrFallback →
        marketResearchPart ms = mrPlaceholderLine)
    ∧ (noAssistantMatch ms caPrimary → noAssistantMatch ms caFallback →
        competitorPart ms = caPlaceholderLine)
    ∧ (noAssistantMatch ms clarStart → clarifiedPart ms = [])
    ∧ (noAssistantMatch ms swotPrimary → noAssistantMatch ms swotFallback →
        swotPart ms = [])
    ∧ (noAssistantMatch ms fbStart → feedbackPart ms = [])
    ∧ (∀ idea date dbg, (generate_final_report idea date ms dbg).1 =
        reportHeader idea date ++ marketResearchPart ms ++ competitorPart ms ++
          clarifiedPart ms ++ swotPart ms ++ feedbackPart ms ++ reportFooter) := by
  refine ⟨?_, ?_, ?_, ?_, ?_, fun idea date dbg => rfl⟩
  · intro h1 h2
    have e1 := find_agent_response_eq_none ms mrPrimary none h1
    have e2 := find_agent_response_eq_none ms mrFallback none h2
    simp [marketResearchPart, pyOr, e1, e2]
  · intro h1 h2
    have e1 := find_agent_response_eq_none ms caPrimary none h1
    have e2 := find_agent_response_eq_none ms caFallback none h2
    simp [competitorPart, pyOr, e1, e2]
  · intro h1
    have e1 := find_agent_response_eq_none ms clarStart (some clarEnd) h1
    simp [clarifiedPart, e1]
  · intro h1 h2
    have e1 := find_agent_response_eq_none ms swotPrimary none h1
    have e2 := find_agent_response_eq_none ms swotFallback none h2
    simp [swotPart, pyOr, e1, e2]
  · intro h1
    have e1 := find_agent_response_eq_none ms fbStart (some fbEnd) h1
    simp [feedbackPart, e1]

/-- Witness for the amended C1: a transcript whose only message is a USER
message containing both fallback markers — since it is not assistant-role,
both placeholder lines are produced. -/
theorem c1_amended_placeholders_witness :
    marketResearchPart [c1WMsg] = mrPlaceholderLine
    ∧ competitorPart [c1WMsg] = caPlaceholderLine :=
  ⟨(c1_amended_placeholders [c1WMsg]).1 (by decide) (by decide),
   (c1_amended_placeholders [c1WMsg]).2.1 (by decide) (by decide)⟩

end BusinessValidator
